import Mathlib

/-!
Shallow embedding of the post_rs directory transfer program (src/main.rs).

Modelling conventions:
* A TCP byte stream is a `List Nat` of byte values; reading returns the value
  read together with the unread remainder of the stream, writing returns the
  list of bytes emitted.
* Rust strings are modelled by their UTF-8 byte sequences (`List Nat`).
* Fallible Rust functions returning `Result` are modelled with
  `Except String`; the error payload carries the message of the failure.
* The platform path separator `std::path::MAIN_SEPARATOR` is passed as an
  explicit parameter `sep`; on every supported platform it is an ASCII byte
  (47 for the slash, 92 for the backslash).
* The two unbounded loops of the program (the chunk loops and the receive
  loop) are embedded with an explicit fuel argument that is initialised, at
  the wrapper, to a quantity that provably dominates the number of
  iterations, so that the fuel-exhaustion branch is unreachable there.
-/

/-- Constant BUFFER_SIZE from src/main.rs line 44. -/
def BUFFER_SIZE : Nat := 1024

/-- Message of the io error produced by read_exact on a short stream. -/
def errShortRead : String := "failed to fill whole buffer"

/-- Message of read_chunk on a zero length request (main.rs line 252). -/
def errZeroRead : String := "reading zero buffer is not allowed"

/-- Message of write_buffer on a zero length request (main.rs line 288). -/
def errZeroWrite : String := "writing zero buffer is not allowed"

/-- Message of write_string on an empty string (main.rs line 300). -/
def errEmptyString : String := "writing empty string is not allowed"

/-- Message of read_string on an oversized length prefix (main.rs line 265). -/
def errTooLong : String := "string should not be longer than 4096"

/-- Message of String::from_utf8 when the bytes are not valid UTF-8. -/
def errUtf8 : String := "invalid utf-8 sequence"

/-- Message of the Rust panic raised by slicing a fixed array out of bounds. -/
def errSlicePanic : String := "slice index out of range"

/-- Message of the unreachable fuel-exhaustion branches of the loop models. -/
def errFuel : String := "loop fuel exhausted"

/-- Big-endian byte encoding of a u64, as u64::to_be_bytes produces it.
The value is reduced modulo 2 ^ 64 because the Rust value has type u64. -/
def u64be (data : Nat) : List Nat :=
  [data % 2 ^ 64 / 2 ^ 56 % 256, data % 2 ^ 64 / 2 ^ 48 % 256,
   data % 2 ^ 64 / 2 ^ 40 % 256, data % 2 ^ 64 / 2 ^ 32 % 256,
   data % 2 ^ 64 / 2 ^ 24 % 256, data % 2 ^ 64 / 2 ^ 16 % 256,
   data % 2 ^ 64 / 2 ^ 8 % 256, data % 2 ^ 64 % 256]

/-- Model of read_u64 (main.rs lines 239 to 244): read exactly 8 bytes and
decode them with u64::from_be_bytes; a stream shorter than 8 bytes makes
read_exact fail with an io error. -/
def read_u64 : List Nat → Except String (Nat × List Nat)
  | b0 :: b1 :: b2 :: b3 :: b4 :: b5 :: b6 :: b7 :: rest =>
    .ok (((((((b0 * 256 + b1) * 256 + b2) * 256 + b3) * 256 + b4) * 256 + b5) * 256
      + b6) * 256 + b7, rest)
  | _ => .error errShortRead

/-- Model of read_chunk (main.rs lines 246 to 254): reject a zero length
request, otherwise read exactly chunk_len bytes with read_exact. -/
def read_chunk (chunk_len : Nat) (s : List Nat) : Except String (List Nat × List Nat) :=
  if chunk_len > 0 then
    if chunk_len ≤ s.length then .ok (s.take chunk_len, s.drop chunk_len)
    else .error errShortRead
  else .error errZeroRead

/-- DFA for the UTF-8 validation performed by String::from_utf8. The state is
none when the next byte must be a sequence lead, and some (lo, hi, k) when the
next byte must be a continuation byte in the closed interval from lo to hi,
with k further plain continuation bytes after it. The lead table matches
RFC 3629 exactly as the Rust standard library checks it: bytes 128 to 193 are
never a valid lead (stray continuations and the overlong leads 192 and 193),
lead 224 restricts its first continuation to 160..191 (no overlong three byte
forms), lead 237 restricts it to 128..159 (no surrogates), lead 240 restricts
it to 144..191 (no overlong four byte forms), lead 244 restricts it to
128..143 (no code point above U+10FFFF), and bytes 245 and above are never
valid. All reachable continuation intervals have a lower bound of at least
128. -/
def utf8Run : List Nat → Option (Nat × Nat × Nat) → Bool
  | [], st => st.isNone
  | b :: rest, none =>
    if b ≤ 127 then utf8Run rest none
    else if b ≤ 193 then false
    else if b ≤ 223 then utf8Run rest (some (128, 191, 0))
    else if b = 224 then utf8Run rest (some (160, 191, 1))
    else if b = 237 then utf8Run rest (some (128, 159, 1))
    else if b ≤ 239 then utf8Run rest (some (128, 191, 1))
    else if b = 240 then utf8Run rest (some (144, 191, 2))
    else if b ≤ 243 then utf8Run rest (some (128, 191, 2))
    else if b = 244 then utf8Run rest (some (128, 143, 2))
    else false
  | b :: rest, some (lo, hi, k) =>
    if lo ≤ b ∧ b ≤ hi then
      utf8Run rest (if k = 0 then none else some (128, 191, k - 1))
    else false

/-- Validity of a byte sequence as UTF-8, as String::from_utf8 decides it. -/
def utf8Valid (l : List Nat) : Bool := utf8Run l none

/-- Model of read_string (main.rs lines 256 to 270): read a u64 length
prefix; a zero length yields the empty string; a length of 4096 or more is
rejected before any payload byte is read; otherwise exactly that many payload
bytes are read and validated as UTF-8. -/
def read_string (s : List Nat) : Except String (List Nat × List Nat) :=
  match read_u64 s with
  | .error e => .error e
  | .ok (str_len, s1) =>
    if str_len = 0 then .ok ([], s1)
    else if str_len < 4096 then
      match read_chunk str_len s1 with
      | .error e => .error e
      | .ok (vec, s2) =>
        if utf8Valid vec then .ok (vec, s2) else .error errUtf8
    else .error errTooLong

/-- Model of write_u64 (main.rs lines 272 to 276): emit the 8 big-endian
bytes of the value. -/
def write_u64 (data : Nat) : List Nat := u64be data

/-- Model of write_buffer (main.rs lines 278 to 290): reject a zero length,
otherwise emit the first data_len bytes of the fixed buffer. Slicing the
buffer beyond its length is a Rust panic, modelled as the distinguished
errSlicePanic outcome. -/
def write_buffer (data : List Nat) (data_len : Nat) : Except String (List Nat) :=
  if data_len > 0 then
    if data_len ≤ data.length then .ok (data.take data_len)
    else .error errSlicePanic
  else .error errZeroWrite

/-- Model of write_string (main.rs lines 292 to 302): reject the empty
string, otherwise emit the u64 length prefix followed by the raw bytes. -/
def write_string (message : List Nat) : Except String (List Nat) :=
  if message.length > 0 then .ok (write_u64 message.length ++ message)
  else .error errEmptyString

/-- Byte transformation of normalize_name: the separator becomes NUL. -/
def sepToNul (sep b : Nat) : Nat := if b = sep then 0 else b

/-- Byte transformation of denormalize_name: NUL becomes the separator. -/
def nulToSep (sep b : Nat) : Nat := if b = 0 then sep else b

/-- Model of normalize_name (main.rs lines 328 to 331): replace every
occurrence of the platform separator with the NUL byte. Because the
separator is a single ASCII character on every platform, the character level
String::replace of the source coincides with this byte level map. -/
def normalize_name (sep : Nat) (name : List Nat) : List Nat := name.map (sepToNul sep)

/-- Model of denormalize_name (main.rs lines 333 to 336): replace every NUL
byte with the platform separator. -/
def denormalize_name (sep : Nat) (name : List Nat) : List Nat := name.map (nulToSep sep)

/-- Chunked content emission loop of write_file (main.rs lines 317 to 323).
Each iteration reads up to BUFFER_SIZE bytes of the remaining file content
into the fixed 1024 byte buffer (a BufReader over an unmodified regular file
returns exactly min BUFFER_SIZE remaining bytes), hands the buffer with the
read count to write_buffer, and subtracts the count from the remaining
length. The emitted chunks are collected in order. The fuel argument bounds
the number of iterations; every iteration consumes at least one content byte,
so a fuel equal to the content length makes the fuel branch unreachable. -/
def write_chunksGo : Nat → List Nat → Except String (List (List Nat))
  | _, [] => .ok []
  | 0, _ :: _ => .error errFuel
  | fuel + 1, b :: tail =>
    let content := b :: tail
    let read_bytes := min BUFFER_SIZE content.length
    let buffer := content.take read_bytes ++ List.replicate (BUFFER_SIZE - read_bytes) 0
    match write_buffer buffer read_bytes with
    | .error e => .error e
    | .ok chunk =>
      match write_chunksGo fuel (content.drop read_bytes) with
      | .error e => .error e
      | .ok chunks => .ok (chunk :: chunks)

/-- Content emission loop of write_file at its full fuel. -/
def write_chunks (content : List Nat) : Except String (List (List Nat)) :=
  write_chunksGo content.length content

/-- Model of write_file (main.rs lines 304 to 325): emit the normalized name
as a string frame, then the file length from the metadata as a u64 frame,
then the content in chunks of at most BUFFER_SIZE bytes. The file on disk is
represented by its byte content; the metadata length is its length. -/
def write_file (sep : Nat) (remote_name content : List Nat) : Except String (List Nat) :=
  match write_string (normalize_name sep remote_name) with
  | .error e => .error e
  | .ok name_frame =>
    match write_chunks content with
    | .error e => .error e
    | .ok chunks => .ok (name_frame ++ write_u64 content.length ++ chunks.flatten)

/-- Filesystem entry as the walkdir iteration of directory_send observes it:
the full path of the entry as a byte string, whether the entry is a regular
file, and the byte content of the file on disk. -/
structure DirEntry where
  path : List Nat
  isFile : Bool
  content : List Nat
deriving DecidableEq

/-- Model of directory_send (main.rs lines 171 to 188): walk the entries,
skip everything that is not a regular file, compute the relative name by
slicing off the length of the canonical root directory, skip entries whose
relative name is empty, send every remaining file with write_file, and put
the u64 frame with value 0 at the end as the end-of-transfer marker. -/
def directory_send (sep : Nat) (dir : List Nat) : List DirEntry → Except String (List Nat)
  | [] => .ok (write_u64 0)
  | entry :: rest =>
    if entry.isFile then
      let relative_file_name := entry.path.drop dir.length
      if relative_file_name.isEmpty then directory_send sep dir rest
      else
        match write_file sep relative_file_name entry.content with
        | .error e => .error e
        | .ok bytes =>
          match directory_send sep dir rest with
          | .error e => .error e
          | .ok rest_bytes => .ok (bytes ++ rest_bytes)
    else directory_send sep dir rest

/-- Content consumption loop of save_file (main.rs lines 223 to 234). While
the remaining declared length is positive: a remainder strictly greater than
BUFFER_SIZE is served by an exact read_exact of the full 1024 byte buffer
which is then written to the file, and a remainder of at most BUFFER_SIZE is
served by one read_chunk of exactly the remaining count. The chunks written
to the file are collected in order, together with the unread remainder of the
stream. Every iteration decreases the remaining length by at least one, so a
fuel equal to the declared length makes the fuel branch unreachable. -/
def save_chunksGo : Nat → Nat → List Nat → Except String (List (List Nat) × List Nat)
  | _, 0, s => .ok ([], s)
  | 0, _ + 1, _ => .error errFuel
  | fuel + 1, len + 1, s =>
    if len + 1 > BUFFER_SIZE then
      if s.length < BUFFER_SIZE then .error errShortRead
      else
        match save_chunksGo fuel (len + 1 - BUFFER_SIZE) (s.drop BUFFER_SIZE) with
        | .error e => .error e
        | .ok (chunks, rest) => .ok (s.take BUFFER_SIZE :: chunks, rest)
    else
      match read_chunk (len + 1) s with
      | .error e => .error e
      | .ok (chunk, rest) => .ok ([chunk], rest)

/-- Content consumption loop of save_file at its full fuel. -/
def save_chunks (len : Nat) (s : List Nat) : Except String (List (List Nat) × List Nat) :=
  save_chunksGo len len s

/-- Model of save_file (main.rs lines 201 to 237): read a string frame as the
wire name; an empty name reports that the transfer is over. Otherwise
denormalize the name, concatenate the destination root directly in front of
it, read the declared u64 length, and consume that many content bytes from
the stream in chunks. The created file is represented in the result by its
full name and the concatenation of the chunks written to it; the boolean
has_next of the source corresponds to some versus none. -/
def save_file (sep : Nat) (dir : List Nat) (s : List Nat) :
    Except String (Option (List Nat × List Nat) × List Nat) :=
  match read_string s with
  | .error e => .error e
  | .ok (file_name, s1) =>
    if file_name.isEmpty then .ok (none, s1)
    else
      let name := denormalize_name sep file_name
      let full_name := dir ++ name
      match read_u64 s1 with
      | .error e => .error e
      | .ok (len, s2) =>
        match save_chunks len s2 with
        | .error e => .error e
        | .ok (chunks, s3) => .ok (some (full_name, chunks.flatten), s3)

/-- Receive loop of directory_receive (main.rs lines 190 to 199): call
save_file until it reports the end of the transfer, collecting the created
files in order. Each iteration that produces a file consumes at least the 8
bytes of the name length prefix from the stream, so a fuel equal to the
stream length makes the fuel branch unreachable. -/
def receiveGo (sep : Nat) (dir : List Nat) (fuel : Nat) (s : List Nat) :
    Except String (List (List Nat × List Nat)) :=
  match save_file sep dir s with
  | .error e => .error e
  | .ok (none, _) => .ok []
  | .ok (some f, rest) =>
    match fuel with
    | 0 => .error errFuel
    | fuel' + 1 =>
      match receiveGo sep dir fuel' rest with
      | .error e => .error e
      | .ok fs => .ok (f :: fs)

/-- Model of directory_receive (main.rs lines 190 to 199) at its full fuel,
returning the list of files created on disk, as pairs of full file name and
written content. -/
def directory_receive (sep : Nat) (dir : List Nat) (s : List Nat) :
    Except String (List (List Nat × List Nat)) :=
  receiveGo sep dir s.length s

/-- Model of main.rs line 50: the run acts as the TCP listener exactly when
the remote host string supplied on the command line is empty. -/
def server_mode (ip_host : List Nat) : Bool := ip_host.isEmpty

/-- Model of main.rs line 51: the run sends exactly when the negation of the
exclusive or of the listener flag and the reverse flag holds. -/
def sending_mode (server reverse : Bool) : Bool := !(Bool.xor server reverse)

/-- Outcome of one dispatched connection handler: either the handler returns
and the process keeps serving, or the whole process is terminated with the
given exit code. -/
inductive HandlerEffect where
  | returned : HandlerEffect
  | processExit (code : Int) : HandlerEffect
deriving DecidableEq

/-- Result of the transfer session run by connection_handler (main.rs lines
132 to 136): the sending mode selects directory_send over the walked entries
and the receiving mode selects directory_receive over the incoming stream. -/
def session_result (sending : Bool) (sep : Nat) (dir : List Nat)
    (entries : List DirEntry) (stream : List Nat) : Except String Unit :=
  if sending then
    match directory_send sep dir entries with
    | .error e => .error e
    | .ok _ => .ok ()
  else
    match directory_receive sep dir stream with
    | .error e => .error e
    | .ok _ => .ok ()

/-- Model of connection_handler (main.rs lines 131 to 141): a session error
calls std::process::exit with the status -1, a successful session returns. -/
def connection_handler (sending : Bool) (sep : Nat) (dir : List Nat)
    (entries : List DirEntry) (stream : List Nat) : HandlerEffect :=
  match session_result sending sep dir entries stream with
  | .error _ => .processExit (-1)
  | .ok _ => .returned

/-- Wire image of one sent file, following the spec wording of the per-file
sequence: a Wire Name string frame, then the file size as a u64 frame, then
the content bytes. Used to compare the stream of directory_send against the
shape the spec declares. -/
def encodeEntry (sep : Nat) (dir : List Nat) (e : DirEntry) : List Nat :=
  let wire_name := normalize_name sep (e.path.drop dir.length)
  u64be wire_name.length ++ wire_name ++ u64be e.content.length ++ e.content

/-! ### Codec lemmas -/

/-- Decoding inverts encoding for u64 values in range. -/
lemma read_u64_u64be (n : Nat) (r : List Nat) (h : n < 2 ^ 64) :
    read_u64 (u64be n ++ r) = .ok (n, r) := by
  simp only [u64be, List.cons_append, List.nil_append, read_u64, Except.ok.injEq,
    Prod.mk.injEq]
  exact ⟨by omega, trivial⟩

/-- A chunk read of the exact length of a leading block returns that block. -/
lemma read_chunk_exact (c r : List Nat) (h : c ≠ []) :
    read_chunk c.length (c ++ r) = .ok (c, r) := by
  have hlen : 0 < c.length := List.length_pos.mpr h
  simp only [read_chunk]
  rw [if_pos hlen, if_pos (by simp)]
  rw [List.take_left, List.drop_left]

/-- Interval lower bounds of the successor states of the UTF-8 DFA. -/
lemma utf8NextState_lo (k : Nat) :
    ∀ lo hi k2, (if k = 0 then (none : Option (Nat × Nat × Nat))
      else some (128, 191, k - 1)) = some (lo, hi, k2) → 128 ≤ lo := by
  intro lo hi k2 h
  by_cases hk : k = 0
  · rw [if_pos hk] at h; exact absurd h (by simp)
  · rw [if_neg hk] at h
    have h2 := Option.some.inj h
    simp only [Prod.mk.injEq] at h2
    omega




set_option maxHeartbeats 1000000 in
/-- Mapping the ASCII separator byte to NUL does not change UTF-8 validity:
lead bytes and continuation bytes above 127 are untouched by the map, and an
ASCII byte stays an ASCII byte. The state invariant carried along is that
every reachable continuation interval starts at 128 or above. -/
lemma utf8Run_sepToNul (sep : Nat) (hsep : sep < 128) :
    ∀ (l : List Nat) (st : Option (Nat × Nat × Nat)),
      (∀ lo hi k, st = some (lo, hi, k) → 128 ≤ lo) →
      utf8Run (l.map (sepToNul sep)) st = utf8Run l st := by
  intro l
  induction l with
  | nil => intro st _; rfl
  | cons b rest ih =>
    intro st hst
    match st with
    | none =>
      by_cases hb : b = sep
      · have h1 : sepToNul sep b = 0 := by simp [sepToNul, hb]
        subst hb
        simp only [List.map_cons, h1, utf8Run]
        rw [if_pos (by omega : (0 : Nat) ≤ 127), if_pos (by omega : b ≤ 127)]
        exact ih none (by simp)
      · have h1 : sepToNul sep b = b := by simp [sepToNul, hb]
        simp only [List.map_cons, h1, utf8Run]
        split_ifs <;>
          first
          | rfl
          | exact ih none (by simp)
          | (apply ih
             intro lo2 hi2 k2 h
             have h2 := Option.some.inj h
             simp only [Prod.mk.injEq] at h2
             omega)
    | some (lo, hi, k) =>
      have hlo : 128 ≤ lo := hst lo hi k rfl
      by_cases hb : b = sep
      · have h1 : sepToNul sep b = 0 := by simp [sepToNul, hb]
        subst hb
        simp only [List.map_cons, h1, utf8Run]
        rw [if_neg (by omega : ¬(lo ≤ 0 ∧ 0 ≤ hi)), if_neg (by omega : ¬(lo ≤ b ∧ b ≤ hi))]
      · have h1 : sepToNul sep b = b := by simp [sepToNul, hb]
        simp only [List.map_cons, h1, utf8Run]
        split_ifs <;>
          first
          | rfl
          | exact ih none (by simp)
          | (apply ih
             intro lo2 hi2 k2 h
             have h2 := Option.some.inj h
             simp only [Prod.mk.injEq] at h2
             omega)

/-- Normalizing a name preserves its UTF-8 validity. -/
lemma utf8Valid_normalize (sep : Nat) (hsep : sep < 128) (l : List Nat) :
    utf8Valid (normalize_name sep l) = utf8Valid l :=
  utf8Run_sepToNul sep hsep l none (by simp)

/-- Denormalizing undoes normalizing on a name free of NUL bytes. -/
lemma denormalize_normalize (sep : Nat) :
    ∀ l : List Nat, 0 ∉ l → denormalize_name sep (normalize_name sep l) = l := by
  intro l
  induction l with
  | nil => intro; rfl
  | cons b t ih =>
    intro h
    have hb0 : b ≠ 0 := by intro h0; exact h (by simp [h0])
    have ht : 0 ∉ t := fun hm => h (by simp [hm])
    simp only [normalize_name, denormalize_name, List.map_cons, List.cons.injEq]
    refine ⟨?_, ?_⟩
    · by_cases hbs : b = sep
      · simp [sepToNul, nulToSep, hbs]
      · simp [sepToNul, nulToSep, hbs, hb0]
    · have h2 := ih ht
      simpa [normalize_name, denormalize_name] using h2

/-! ### Chunk loop lemmas -/

/-- The write_buffer call issued by the sender loop: the buffer holds the
next read_bytes content bytes followed by stale padding, and exactly the
content bytes are emitted. -/
lemma write_buffer_loopCall (content : List Nat) (rb : Nat) (h1 : 0 < rb)
    (h2 : rb ≤ content.length) (h3 : rb ≤ BUFFER_SIZE) :
    write_buffer (content.take rb ++ List.replicate (BUFFER_SIZE - rb) 0) rb =
      .ok (content.take rb) := by
  have hlen : (content.take rb ++ List.replicate (BUFFER_SIZE - rb) 0).length = BUFFER_SIZE := by
    simp [List.length_take]
    omega
  simp only [write_buffer]
  rw [if_pos h1, if_pos (by omega)]
  rw [List.take_append_of_le_length (by simp [List.length_take]; omega)]
  rw [List.take_take, min_self]

/-- Full specification of the sender content loop: with fuel at least the
content length it succeeds, the emitted chunks concatenate back to exactly
the content, each chunk is nonempty and at most BUFFER_SIZE long, and the
number of chunks is the number of reads, namely the content length divided by
BUFFER_SIZE rounded up. -/
lemma write_chunksGo_spec :
    ∀ (fuel : Nat) (content : List Nat), content.length ≤ fuel →
    ∃ cs, write_chunksGo fuel content = .ok cs ∧ cs.flatten = content ∧
      (∀ c ∈ cs, 0 < c.length ∧ c.length ≤ BUFFER_SIZE) ∧
      cs.length = (content.length + (BUFFER_SIZE - 1)) / BUFFER_SIZE := by
  intro fuel
  induction fuel with
  | zero =>
    intro content hc
    have : content = [] := List.length_eq_zero.mp (by omega)
    subst this
    exact ⟨[], rfl, rfl, by simp, by simp [BUFFER_SIZE]⟩
  | succ fuel ih =>
    intro content hc
    match content with
    | [] => exact ⟨[], rfl, rfl, by simp, by simp [BUFFER_SIZE]⟩
    | b :: tail =>
      have hL1 : 1 ≤ (b :: tail).length := by simp
      have hrb1 : 0 < min BUFFER_SIZE (b :: tail).length := by
        simp only [BUFFER_SIZE, List.length_cons]
        omega
      have hrb2 : min BUFFER_SIZE (b :: tail).length ≤ (b :: tail).length :=
        Nat.min_le_right _ _
      have hrb3 : min BUFFER_SIZE (b :: tail).length ≤ BUFFER_SIZE :=
        Nat.min_le_left _ _
      obtain ⟨cs, hcs, hflat, hbound, hcount⟩ :=
        ih ((b :: tail).drop (min BUFFER_SIZE (b :: tail).length))
          (by simp only [List.length_drop, List.length_cons] at *; omega)
      refine ⟨(b :: tail).take (min BUFFER_SIZE (b :: tail).length) :: cs, ?_, ?_, ?_, ?_⟩
      · simp only [write_chunksGo]
        rw [write_buffer_loopCall (b :: tail) (min BUFFER_SIZE (b :: tail).length) hrb1 hrb2 hrb3]
        rw [hcs]
      · simp only [List.flatten_cons, hflat, List.take_append_drop]
      · intro c hcmem
        rcases List.mem_cons.mp hcmem with hc1 | hc2
        · subst hc1
          constructor
          · simp only [List.length_take]
            omega
          · simp only [List.length_take]
            omega
        · exact hbound c hc2
      · rw [List.length_cons, hcount, List.length_drop]
        rcases Nat.le_total BUFFER_SIZE (b :: tail).length with hm | hm
        · rw [Nat.min_eq_left hm]
          simp only [BUFFER_SIZE, List.length_cons] at hm ⊢
          omega
        · rw [Nat.min_eq_right hm]
          simp only [BUFFER_SIZE, List.length_cons] at hm ⊢
          omega

/-- Specification of write_chunks at its standard fuel. -/
lemma write_chunks_spec (content : List Nat) :
    ∃ cs, write_chunks content = .ok cs ∧ cs.flatten = content ∧
      (∀ c ∈ cs, 0 < c.length ∧ c.length ≤ BUFFER_SIZE) ∧
      cs.length = (content.length + (BUFFER_SIZE - 1)) / BUFFER_SIZE :=
  write_chunksGo_spec content.length content le_rfl

/-- Full specification of the receiver content loop: with fuel at least the
declared length and a stream holding at least that many bytes it succeeds,
consuming exactly the declared count of leading stream bytes, written out in
nonempty chunks of at most BUFFER_SIZE bytes whose number is the declared
length divided by BUFFER_SIZE rounded up. -/
lemma save_chunksGo_spec :
    ∀ (fuel len : Nat) (s : List Nat), len ≤ fuel → len ≤ s.length →
    ∃ cs, save_chunksGo fuel len s = .ok (cs, s.drop len) ∧ cs.flatten = s.take len ∧
      (∀ c ∈ cs, 0 < c.length ∧ c.length ≤ BUFFER_SIZE) ∧
      cs.length = (len + (BUFFER_SIZE - 1)) / BUFFER_SIZE := by
  intro fuel
  induction fuel with
  | zero =>
    intro len s hf hs
    have : len = 0 := by omega
    subst this
    exact ⟨[], rfl, by simp, by simp, by simp [BUFFER_SIZE]⟩
  | succ fuel ih =>
    intro len s hf hs
    match len with
    | 0 => exact ⟨[], rfl, by simp, by simp, by simp [BUFFER_SIZE]⟩
    | l + 1 =>
      by_cases hbig : l + 1 > BUFFER_SIZE
      · obtain ⟨cs, hcs, hflat, hbound, hcount⟩ :=
          ih (l + 1 - BUFFER_SIZE) (s.drop BUFFER_SIZE)
            (by simp only [BUFFER_SIZE] at hbig ⊢; omega)
            (by simp only [List.length_drop, BUFFER_SIZE] at hbig ⊢; omega)
        refine ⟨s.take BUFFER_SIZE :: cs, ?_, ?_, ?_, ?_⟩
        · simp only [save_chunksGo]
          rw [if_pos hbig, if_neg (by simp only [BUFFER_SIZE] at hbig hs ⊢; omega : ¬s.length < BUFFER_SIZE), hcs]
          rw [List.drop_drop]
          rw [show BUFFER_SIZE + (l + 1 - BUFFER_SIZE) = l + 1 by omega]
        · simp only [List.flatten_cons, hflat, BUFFER_SIZE] at *
          nth_rewrite 2 [show l + 1 = 1024 + (l + 1 - 1024) from by omega]
          rw [List.take_add]
        · intro c hcmem
          rcases List.mem_cons.mp hcmem with hc1 | hc2
          · subst hc1
            simp only [List.length_take, BUFFER_SIZE] at hbig hs ⊢
            exact ⟨by omega, by omega⟩
          · exact hbound c hc2
        · rw [List.length_cons, hcount]
          simp only [BUFFER_SIZE] at *
          omega
      · refine ⟨[s.take (l + 1)], ?_, by simp, ?_, ?_⟩
        · simp only [save_chunksGo]
          rw [if_neg hbig]
          simp only [read_chunk]
          rw [if_pos (by omega), if_pos hs]
        · intro c hcmem
          rcases List.mem_cons.mp hcmem with hc1 | hc2
          · subst hc1
            simp only [List.length_take]
            exact ⟨by omega, by omega⟩
          · simp at hc2
        · simp only [List.length_cons, List.length_nil]
          simp only [BUFFER_SIZE] at *
          omega

/-- Specification of save_chunks at its standard fuel. -/
lemma save_chunks_spec (len : Nat) (s : List Nat) (hs : len ≤ s.length) :
    ∃ cs, save_chunks len s = .ok (cs, s.drop len) ∧ cs.flatten = s.take len ∧
      (∀ c ∈ cs, 0 < c.length ∧ c.length ≤ BUFFER_SIZE) ∧
      cs.length = (len + (BUFFER_SIZE - 1)) / BUFFER_SIZE :=
  save_chunksGo_spec len len s le_rfl hs

/-! ### Frame level lemmas -/

/-- A nonempty name makes write_string emit the length prefixed frame. -/
lemma write_string_eq (message : List Nat) (h : message ≠ []) :
    write_string message = .ok (u64be message.length ++ message) := by
  simp only [write_string, write_u64]
  rw [if_pos (List.length_pos.mpr h)]

/-- Evaluation of write_file on a nonempty relative name: the name frame of
the normalized name, the content length frame, and the raw content. -/
lemma write_file_eq (sep : Nat) (rel content : List Nat) (h : rel ≠ []) :
    write_file sep rel content =
      .ok (u64be (normalize_name sep rel).length ++ (normalize_name sep rel ++
        (u64be content.length ++ content))) := by
  have hn : normalize_name sep rel ≠ [] := by
    simp only [normalize_name]
    intro hc
    exact h (List.map_eq_nil_iff.mp hc)
  obtain ⟨cs, hcs, hflat, _, _⟩ := write_chunks_spec content
  simp only [write_file]
  rw [write_string_eq _ hn, hcs]
  simp [write_u64, hflat, List.append_assoc]

/-- Evaluation of directory_send on a walk consisting of regular files with
nonempty relative names: the concatenation of the per-file frames followed by
the bare u64 end-of-transfer frame. -/
lemma directory_send_eq (sep : Nat) (dir : List Nat) :
    ∀ entries : List DirEntry,
      (∀ e ∈ entries, e.isFile = true ∧ e.path.drop dir.length ≠ []) →
      directory_send sep dir entries =
        .ok ((entries.map (encodeEntry sep dir)).flatten ++ u64be 0) := by
  intro entries
  induction entries with
  | nil => intro _; simp [directory_send, write_u64]
  | cons e rest ih =>
    intro h
    obtain ⟨hfile, hrel⟩ := h e (by simp)
    have hrest := fun e2 hm => h e2 (List.mem_cons_of_mem _ hm)
    simp only [directory_send, hfile, if_true]
    rw [if_neg (by simpa [List.isEmpty_iff] using hrel)]
    rw [write_file_eq sep _ e.content hrel, ih hrest]
    simp only [List.map_cons, List.flatten_cons, encodeEntry]
    simp [normalize_name, List.append_assoc]

/-- The sentinel frame makes save_file report the end of the transfer. -/
lemma save_file_sentinel (sep : Nat) (dir rest : List Nat) :
    save_file sep dir (u64be 0 ++ rest) = .ok (none, rest) := by
  simp only [save_file, read_string]
  rw [read_u64_u64be 0 rest (by norm_num)]
  simp

/-- A correctly framed nonempty valid name is decoded by read_string. -/
lemma read_string_frame (w tail : List Nat) (hw : w ≠ []) (hlen : w.length < 4096)
    (hv : utf8Valid w = true) :
    read_string (u64be w.length ++ (w ++ tail)) = .ok (w, tail) := by
  have h0 : ¬w.length = 0 := by
    have := List.length_pos.mpr hw
    omega
  simp [read_string, read_u64_u64be w.length (w ++ tail) (by omega), h0, hlen,
    read_chunk_exact w tail hw, hv]

/-- Evaluation of save_file on one complete encoded file frame sequence: the
wire name is decoded and denormalized, the destination root is concatenated
directly in front of it, and exactly the declared content is consumed. -/
lemma save_file_encoded (sep : Nat) (dir w content rest : List Nat)
    (hw : w ≠ []) (hlen : w.length < 4096) (hv : utf8Valid w = true)
    (hc : content.length < 2 ^ 64) :
    save_file sep dir (u64be w.length ++ (w ++ (u64be content.length ++ (content ++ rest)))) =
      .ok (some (dir ++ denormalize_name sep w, content), rest) := by
  obtain ⟨cs, hcs, hflat, _, _⟩ := save_chunks_spec content.length (content ++ rest)
    (by simp)
  have hflat2 : cs.flatten = content := by
    rw [hflat, List.take_left]
  have hdrop : (content ++ rest).drop content.length = rest := List.drop_left content rest
  simp [save_file, read_string_frame w _ hw hlen hv, hw,
    read_u64_u64be content.length (content ++ rest) hc, hcs, hdrop, hflat2]

/-- A flatten of nonempty lists is at least as long as the list of lists. -/
lemma length_le_flatten_length :
    ∀ l : List (List Nat), (∀ x ∈ l, 0 < x.length) → l.length ≤ l.flatten.length := by
  intro l
  induction l with
  | nil => intro _; simp
  | cons a t ih =>
    intro h
    have h1 := h a (by simp)
    have h2 := ih fun x hx => h x (List.mem_cons_of_mem _ hx)
    simp only [List.flatten_cons, List.length_append, List.length_cons]
    omega

/-- Every per-file frame sequence is nonempty. -/
lemma encodeEntry_length_pos (sep : Nat) (dir : List Nat) (e : DirEntry) :
    0 < (encodeEntry sep dir e).length := by
  simp [encodeEntry, u64be]

/-- One unfolding of the receive loop when save_file reports the sentinel. -/
lemma receiveGo_done (sep : Nat) (dir : List Nat) (fuel : Nat) (s s1 : List Nat)
    (hsf : save_file sep dir s = .ok (none, s1)) :
    receiveGo sep dir fuel s = .ok [] := by
  unfold receiveGo
  rw [hsf]

/-- One unfolding of the receive loop when save_file produces a file. -/
lemma receiveGo_step (sep : Nat) (dir : List Nat) (fuel : Nat) (s rest : List Nat)
    (f : List Nat × List Nat) (hsf : save_file sep dir s = .ok (some f, rest)) :
    receiveGo sep dir (fuel + 1) s =
      match receiveGo sep dir fuel rest with
      | .error e => .error e
      | .ok fs => .ok (f :: fs) := by
  conv_lhs => unfold receiveGo
  rw [hsf]

/-- The receive loop inverts the sender frame stream: given enough fuel it
reconstructs, in order, one file per encoded entry, each named by the
destination root concatenated with the relative name and carrying exactly the
sent content. -/
lemma receiveGo_encoded (sep : Nat) (hsep : sep < 128) (src dst : List Nat) :
    ∀ (entries : List DirEntry) (fuel : Nat), entries.length ≤ fuel →
      (∀ e ∈ entries, (∃ rel, e.path = src ++ rel ∧ rel ≠ [] ∧ rel.length < 4096 ∧
          utf8Valid rel = true ∧ 0 ∉ rel) ∧ e.content.length < 2 ^ 64) →
      receiveGo sep dst fuel ((entries.map (encodeEntry sep src)).flatten ++ u64be 0) =
        .ok (entries.map fun e => (dst ++ e.path.drop src.length, e.content)) := by
  intro entries
  induction entries with
  | nil =>
    intro fuel _ _
    simp only [List.map_nil, List.flatten_nil, List.nil_append]
    rw [show u64be 0 = u64be 0 ++ [] by simp]
    rw [receiveGo_done sep dst fuel _ [] (save_file_sentinel sep dst [])]
  | cons e rest ih =>
    intro fuel hfuel h
    obtain ⟨⟨rel, hpath, hne, hlen, hval, hnul⟩, hclen⟩ := h e (by simp)
    have hdropE : e.path.drop src.length = rel := by
      rw [hpath, List.drop_left]
    have hwne : normalize_name sep rel ≠ [] := by
      simp only [normalize_name]
      intro hc
      exact hne (List.map_eq_nil_iff.mp hc)
    have hwlen : (normalize_name sep rel).length < 4096 := by
      simpa [normalize_name] using hlen
    have hwval : utf8Valid (normalize_name sep rel) = true := by
      rw [utf8Valid_normalize sep hsep rel]; exact hval
    match fuel with
    | 0 => simp at hfuel
    | fuel + 1 =>
      have hstream :
          ((e :: rest).map (encodeEntry sep src)).flatten ++ u64be 0 =
            u64be (normalize_name sep rel).length ++ (normalize_name sep rel ++
              (u64be e.content.length ++ (e.content ++
                ((rest.map (encodeEntry sep src)).flatten ++ u64be 0)))) := by
        simp only [List.map_cons, List.flatten_cons, encodeEntry, hdropE]
        simp [List.append_assoc]
      rw [hstream]
      rw [receiveGo_step sep dst fuel _ _ _
        (save_file_encoded sep dst (normalize_name sep rel) e.content _ hwne hwlen hwval hclen)]
      rw [ih fuel (by simp at hfuel ⊢; omega)
        (fun e2 hm => h e2 (List.mem_cons_of_mem _ hm))]
      simp [List.map_cons, hdropE, denormalize_normalize sep rel hnul]

/-! ### Claim theorems -/

/-- Claim C1: for every directory tree of regular files (full paths under the
source root, relative names nonempty NUL-free UTF-8 strings shorter than the
4096 byte frame cap, file sizes representable as u64), sending the tree with
directory_send and receiving the resulting byte stream with directory_receive
into a destination directory reproduces identical relative paths and byte
identical contents for every file. -/
theorem round_trip_send_receive (sep : Nat) (src dst : List Nat)
    (entries : List DirEntry) (hsep : sep < 128)
    (h : ∀ e ∈ entries, e.isFile = true ∧ e.content.length < 2 ^ 64 ∧
      ∃ rel, e.path = src ++ rel ∧ rel ≠ [] ∧ rel.length < 4096 ∧
        utf8Valid rel = true ∧ 0 ∉ rel) :
    ∃ stream, directory_send sep src entries = .ok stream ∧
      directory_receive sep dst stream =
        .ok (entries.map fun e => (dst ++ e.path.drop src.length, e.content)) := by
  have hsend := directory_send_eq sep src entries (fun e he => by
    obtain ⟨hf, _, rel, hp, hne, _, _, _⟩ := h e he
    refine ⟨hf, ?_⟩
    rw [hp, List.drop_left]
    exact hne)
  refine ⟨_, hsend, ?_⟩
  unfold directory_receive
  apply receiveGo_encoded sep hsep src dst entries
  · have h1 : entries.length ≤ (entries.map (encodeEntry sep src)).flatten.length := by
      have h2 := length_le_flatten_length (entries.map (encodeEntry sep src)) (by
        intro x hx
        obtain ⟨e, _, hxe⟩ := List.mem_map.mp hx
        rw [← hxe]
        exact encodeEntry_length_pos sep src e)
      simpa using h2
    simp only [List.length_append]
    omega
  · intro e he
    obtain ⟨_, hc, rel, hp, hne, hl, hv, hn⟩ := h e he
    exact ⟨⟨rel, hp, hne, hl, hv, hn⟩, hc⟩

/-- Witness for C1 on a one file tree: path d slash a with two content
bytes, sent from root d and received into root e. -/
theorem round_trip_send_receive_witness :
    ∃ stream, directory_send 47 [100] [⟨[100, 47, 97], true, [10, 20]⟩] = .ok stream ∧
      directory_receive 47 [101] stream =
        .ok (([⟨[100, 47, 97], true, [10, 20]⟩] : List DirEntry).map
          fun e => ([101] ++ e.path.drop [100].length, e.content)) :=
  round_trip_send_receive 47 [100] [101] [⟨[100, 47, 97], true, [10, 20]⟩]
    (by norm_num)
    (by intro e he
        rw [List.mem_singleton] at he
        subst he
        exact ⟨rfl, by norm_num, [47, 97], rfl, by decide, by decide, by decide, by decide⟩)

/-- Claim C2: the stream of directory_send is the per-file frame sequences in
walk order followed by one bare u64 value 0; a directory with zero files
transmits only that sentinel, and the receiver consuming a bare sentinel
creates zero files and ends the session successfully. -/
theorem wire_stream_shape :
    (∀ (sep : Nat) (src : List Nat) (entries : List DirEntry),
      (∀ e ∈ entries, e.isFile = true ∧ e.path.drop src.length ≠ []) →
      directory_send sep src entries =
        .ok ((entries.map (encodeEntry sep src)).flatten ++ u64be 0))
    ∧ (∀ (sep : Nat) (src : List Nat), directory_send sep src [] = .ok (u64be 0))
    ∧ (∀ (sep : Nat) (dst : List Nat), directory_receive sep dst (u64be 0) = .ok []) := by
  refine ⟨fun sep src => directory_send_eq sep src, ?_, ?_⟩
  · intro sep src
    simp [directory_send, write_u64]
  · intro sep dst
    unfold directory_receive
    exact receiveGo_done sep dst _ _ [] (by simpa using save_file_sentinel sep dst [])

/-- Witness for C2: sending an empty walk emits only the sentinel and
receiving a bare sentinel produces no files. -/
theorem wire_stream_shape_witness :
    directory_send 47 [] [] = .ok (u64be 0) ∧
      directory_receive 47 [] (u64be 0) = .ok [] :=
  ⟨wire_stream_shape.2.1 47 [], wire_stream_shape.2.2 47 []⟩

/-- Claim C3: read_string first reads a u64 length; a length of 0 returns the
empty string; a length of at least 4096 fails with the protocol error without
reading any payload byte (the outcome does not depend on the rest of the
stream at all); otherwise exactly that many bytes are read and the call fails
exactly when they are not valid UTF-8. -/
theorem read_string_guard :
    (∀ r : List Nat, read_string (u64be 0 ++ r) = .ok ([], r))
    ∧ (∀ (n : Nat) (r : List Nat), 4096 ≤ n → n < 2 ^ 64 →
        read_string (u64be n ++ r) = .error errTooLong)
    ∧ (∀ (n : Nat) (r : List Nat), 0 < n → n < 4096 → n ≤ r.length →
        read_string (u64be n ++ r) =
          if utf8Valid (r.take n) then .ok (r.take n, r.drop n)
          else .error errUtf8) := by
  refine ⟨?_, ?_, ?_⟩
  · intro r
    simp [read_string, read_u64_u64be 0 r (by norm_num)]
  · intro n r h1 h2
    have hn0 : ¬n = 0 := by omega
    have hn4 : ¬n < 4096 := by omega
    simp [read_string, read_u64_u64be n r h2, hn0, hn4]
  · intro n r h1 h2 h3
    have hn0 : ¬n = 0 := by omega
    have hrc : read_chunk n r = .ok (r.take n, r.drop n) := by
      simp only [read_chunk]
      rw [if_pos h1, if_pos h3]
    simp only [read_string, read_u64_u64be n r (by omega), hrc]
    rw [if_neg hn0, if_pos h2]

/-- Witness for C3: a length of 5000 is rejected even with an empty rest of
stream, and a one byte ASCII payload is read back exactly. -/
theorem read_string_guard_witness :
    read_string (u64be 5000 ++ []) = .error errTooLong ∧
      read_string (u64be 1 ++ [104]) =
        (if utf8Valid ([104].take 1) then .ok ([104].take 1, [104].drop 1)
         else .error errUtf8) :=
  ⟨read_string_guard.2.1 5000 [] (by norm_num) (by norm_num),
   read_string_guard.2.2 1 [104] (by norm_num) (by norm_num) (by norm_num)⟩

/-- Claim C4: the run acts as listener exactly when the remote host string is
empty, sending mode is the negated exclusive or of the listener and reverse
flags, and the two flags realize exactly the four roles: listener sending,
listener receiving, connector sending, connector receiving. -/
theorem role_resolution :
    (∀ ip_host : List Nat, server_mode ip_host = true ↔ ip_host = [])
    ∧ (∀ listener reverse : Bool,
        sending_mode listener reverse = !(Bool.xor listener reverse))
    ∧ sending_mode true false = false ∧ sending_mode true true = true
    ∧ sending_mode false false = true ∧ sending_mode false true = false := by
  refine ⟨?_, fun _ _ => rfl, rfl, rfl, rfl, rfl⟩
  intro ip
  simp [server_mode, List.isEmpty_iff]

/-- Witness for C4: an empty host string selects the listener role and a
listener with the reverse flag sends. -/
theorem role_resolution_witness :
    server_mode [] = true ∧ sending_mode true true = true :=
  ⟨(role_resolution.1 []).mpr rfl, role_resolution.2.2.2.1⟩

/-- Claim C5: on one host, denormalize_name undoes normalize_name on every
relative path string (a path string never contains the NUL byte), and the two
functions are exactly the byte maps separator to NUL and NUL to separator. -/
theorem normalizer_round_trip (sep : Nat) (name : List Nat) (h : 0 ∉ name) :
    denormalize_name sep (normalize_name sep name) = name ∧
      normalize_name sep name = name.map (fun b => if b = sep then 0 else b) ∧
      denormalize_name sep name = name.map (fun b => if b = 0 then sep else b) :=
  ⟨denormalize_normalize sep name h, rfl, rfl⟩

/-- Witness for C5 on the name slash a with the Unix separator. -/
theorem normalizer_round_trip_witness :
    denormalize_name 47 (normalize_name 47 [47, 97]) = [47, 97] ∧
      normalize_name 47 [47, 97] = [47, 97].map (fun b => if b = 47 then 0 else b) ∧
      denormalize_name 47 [47, 97] = [47, 97].map (fun b => if b = 0 then 47 else b) :=
  normalizer_round_trip 47 [47, 97] (by decide)

/-- Claim C6: both content loops transfer exactly the declared byte count in
chunks of at most BUFFER_SIZE bytes: the sender loop emits chunks that
concatenate to exactly the content, and the receiver loop consumes exactly
the declared count of leading stream bytes; the number of reads is the byte
count divided by BUFFER_SIZE rounded up, so an exact multiple of BUFFER_SIZE
leaves no residual bytes, a zero byte file causes no content read at all, and
a one byte file causes exactly one read. -/
theorem chunk_boundary_exact :
    (∀ content : List Nat, ∃ cs, write_chunks content = .ok cs ∧
      cs.flatten = content ∧ (∀ c ∈ cs, 0 < c.length ∧ c.length ≤ BUFFER_SIZE) ∧
      cs.length = (content.length + (BUFFER_SIZE - 1)) / BUFFER_SIZE)
    ∧ (∀ (len : Nat) (s : List Nat), len ≤ s.length →
      ∃ cs, save_chunks len s = .ok (cs, s.drop len) ∧ cs.flatten = s.take len ∧
        (∀ c ∈ cs, 0 < c.length ∧ c.length ≤ BUFFER_SIZE) ∧
        cs.length = (len + (BUFFER_SIZE - 1)) / BUFFER_SIZE) :=
  ⟨write_chunks_spec, save_chunks_spec⟩

/-- Witness for C6: receiving a declared length of 2048 from a 2049 byte
stream consumes exactly 2048 bytes. -/
theorem chunk_boundary_exact_witness :
    ∃ cs, save_chunks 2048 (List.replicate 2049 7) =
        .ok (cs, (List.replicate 2049 7).drop 2048) ∧
      cs.flatten = (List.replicate 2049 7).take 2048 ∧
      (∀ c ∈ cs, 0 < c.length ∧ c.length ≤ BUFFER_SIZE) ∧
      cs.length = (2048 + (BUFFER_SIZE - 1)) / BUFFER_SIZE :=
  chunk_boundary_exact.2 2048 (List.replicate 2049 7) (by rw [List.length_replicate]; omega)

/-- Claim C7: write_string on the empty string, read_chunk on a zero count
and write_buffer on a zero count each fail without touching the stream, while
for every positive count read_chunk reads exactly that many bytes and
write_buffer writes exactly that many leading buffer bytes. -/
theorem zero_length_guards :
    (∀ s : List Nat, read_chunk 0 s = .error errZeroRead)
    ∧ write_string [] = .error errEmptyString
    ∧ (∀ data : List Nat, write_buffer data 0 = .error errZeroWrite)
    ∧ (∀ (n : Nat) (s : List Nat), 0 < n → n ≤ s.length →
        read_chunk n s = .ok (s.take n, s.drop n) ∧ (s.take n).length = n)
    ∧ (∀ (data : List Nat) (n : Nat), 0 < n → n ≤ data.length →
        write_buffer data n = .ok (data.take n) ∧ (data.take n).length = n) := by
  refine ⟨fun s => rfl, rfl, fun data => rfl, ?_, ?_⟩
  · intro n s h1 h2
    constructor
    · simp only [read_chunk]
      rw [if_pos h1, if_pos h2]
    · simp only [List.length_take]
      omega
  · intro data n h1 h2
    constructor
    · simp only [write_buffer]
      rw [if_pos h1, if_pos h2]
    · simp only [List.length_take]
      omega

/-- Witness for C7: a two byte read from a three byte stream returns exactly
the two leading bytes. -/
theorem zero_length_guards_witness :
    read_chunk 2 [5, 6, 7] = .ok ([5, 6, 7].take 2, [5, 6, 7].drop 2) ∧
      ([5, 6, 7].take 2).length = 2 :=
  zero_length_guards.2.2.2.1 2 [5, 6, 7] (by norm_num) (by norm_num)

/-- Claim C8: in the listener role every dispatched session that fails makes
connection_handler terminate the whole process with the nonzero status -1,
and no session error is swallowed: the handler exits exactly when the session
result is an error. -/
theorem listener_failure_policy :
    (∀ (sending : Bool) (sep : Nat) (dir : List Nat) (entries : List DirEntry)
        (stream : List Nat),
      connection_handler sending sep dir entries stream = .processExit (-1) ↔
        ∃ e, session_result sending sep dir entries stream = .error e)
    ∧ (∀ (sending : Bool) (sep : Nat) (dir : List Nat) (entries : List DirEntry)
        (stream : List Nat) (code : Int),
      connection_handler sending sep dir entries stream = .processExit code →
        code = -1 ∧ code ≠ 0) := by
  constructor
  · intro sending sep dir entries stream
    unfold connection_handler
    cases hres : session_result sending sep dir entries stream with
    | error e => simp
    | ok u => simp
  · intro sending sep dir entries stream code h
    unfold connection_handler at h
    cases hres : session_result sending sep dir entries stream with
    | error e =>
      rw [hres] at h
      simp only [HandlerEffect.processExit.injEq] at h
      omega
    | ok u =>
      rw [hres] at h
      simp at h

/-- Witness for C8: a receiving session fed a one byte stream fails inside
read_u64 and the handler kills the process with status -1. -/
theorem listener_failure_policy_witness :
    connection_handler false 47 [] [] [0] = .processExit (-1) :=
  (listener_failure_policy.1 false 47 [] [] [0]).mpr ⟨errShortRead, rfl⟩

/-- Claim C9: when every walked file lies below the canonical root so that
its full path is the root followed by a separator and a tail, the slicing in
directory_send keeps that separator: every relative name starts with the
separator, every wire name starts with the NUL byte after normalization, and
the receiver prepends its destination root by plain concatenation with no
separator of its own. -/
theorem wire_name_leading_separator (sep : Nat) (src dst : List Nat)
    (entries : List DirEntry)
    (h : ∀ e ∈ entries, e.isFile = true ∧ ∃ tail, e.path = src ++ sep :: tail) :
    directory_send sep src entries =
      .ok ((entries.map (encodeEntry sep src)).flatten ++ u64be 0)
    ∧ (∀ e ∈ entries, (e.path.drop src.length).head? = some sep ∧
        (normalize_name sep (e.path.drop src.length)).head? = some 0)
    ∧ (∀ (w content rest : List Nat), w ≠ [] → w.length < 4096 →
        utf8Valid w = true → content.length < 2 ^ 64 →
        save_file sep dst
            (u64be w.length ++ (w ++ (u64be content.length ++ (content ++ rest)))) =
          .ok (some (dst ++ denormalize_name sep w, content), rest)) := by
  refine ⟨?_, ?_, ?_⟩
  · apply directory_send_eq
    intro e he
    obtain ⟨hf, tail, hp⟩ := h e he
    refine ⟨hf, ?_⟩
    rw [hp, List.drop_left]
    simp
  · intro e he
    obtain ⟨_, tail, hp⟩ := h e he
    have hd : e.path.drop src.length = sep :: tail := by
      rw [hp, List.drop_left]
    rw [hd]
    exact ⟨rfl, by simp [normalize_name, sepToNul]⟩
  · intro w content rest hw hlen hv hc
    exact save_file_encoded sep dst w content rest hw hlen hv hc

/-- Witness for C9 on a one file walk whose full path is the root d followed
by slash a. -/
theorem wire_name_leading_separator_witness :
    directory_send 47 [100] [⟨[100, 47, 97], true, [9]⟩] =
      .ok ((([⟨[100, 47, 97], true, [9]⟩] : List DirEntry).map
        (encodeEntry 47 [100])).flatten ++ u64be 0)
    ∧ (∀ e ∈ ([⟨[100, 47, 97], true, [9]⟩] : List DirEntry),
        (e.path.drop [100].length).head? = some 47 ∧
        (normalize_name 47 (e.path.drop [100].length)).head? = some 0)
    ∧ (∀ (w content rest : List Nat), w ≠ [] → w.length < 4096 →
        utf8Valid w = true → content.length < 2 ^ 64 →
        save_file 47 [101]
            (u64be w.length ++ (w ++ (u64be content.length ++ (content ++ rest)))) =
          .ok (some ([101] ++ denormalize_name 47 w, content), rest)) :=
  wire_name_leading_separator 47 [100] [101] [⟨[100, 47, 97], true, [9]⟩]
    (by intro e he
        rw [List.mem_singleton] at he
        subst he
        exact ⟨rfl, [97], rfl⟩)

/-- Claim C10: write_buffer never checks that the requested count fits its
fixed BUFFER_SIZE byte array, and a count above BUFFER_SIZE is the out of
bounds slice panic; the only caller, the write_file loop, always passes a
count of at most BUFFER_SIZE because each read fills at most the buffer, so
the loop always succeeds and the panic is unreachable in the program. -/
theorem write_buffer_precondition :
    (∀ (data : List Nat) (data_len : Nat), data.length = BUFFER_SIZE →
        BUFFER_SIZE < data_len → write_buffer data data_len = .error errSlicePanic)
    ∧ (∀ content : List Nat, ∃ cs, write_chunks content = .ok cs)
    ∧ (∀ (sep : Nat) (name content : List Nat), name ≠ [] →
        ∃ bytes, write_file sep name content = .ok bytes) := by
  refine ⟨?_, ?_, ?_⟩
  · intro data n hd hn
    simp only [write_buffer]
    rw [if_pos (by simp only [BUFFER_SIZE] at hn; omega), if_neg (by omega)]
  · intro content
    obtain ⟨cs, hcs, _⟩ := write_chunks_spec content
    exact ⟨cs, hcs⟩
  · intro sep name content hname
    exact ⟨_, write_file_eq sep name content hname⟩

/-- Witness for C10: a request of 1025 bytes from the 1024 byte buffer is the
panic case, and the sender loop succeeds on a 1500 byte content. -/
theorem write_buffer_precondition_witness :
    write_buffer (List.replicate 1024 0) 1025 = .error errSlicePanic ∧
      ∃ cs, write_chunks (List.replicate 1500 3) = .ok cs :=
  ⟨write_buffer_precondition.1 (List.replicate 1024 0) 1025
      (by rw [List.length_replicate]; rfl) (by decide),
    write_buffer_precondition.2.1 (List.replicate 1500 3)⟩
